import Mathlib

/-!
Verification of the Entity Redaction Engine of the document-anonymizer
repository (source files `doc_anonymizer.py` and
`multiformats_anonymizer.py`).

Modelling conventions (shallow embedding):
* Python `str` values that are spliced by character offset are modelled as
  `List Char` (Python string slicing is by code point, exactly list
  `take`/`drop`).  Surface strings, labels, filenames and placeholders are
  Lean `String`s compared for exact equality, as in the source.
* The entity detector (`nlp`) is an external black box: every function that
  calls it in the source takes the detector's output (a list of entity
  occurrences) as an argument here.
* The process-wide mutable globals `entity_mapping` and `unique_redactions`
  become an explicit state value threaded through the functions; the global
  `WHITELIST` becomes an explicit parameter.
* The Python `set` `unique_redactions` is modelled as a duplicate-free list
  with membership-guarded insertion (`setAdd`); Python `dict` becomes an
  association list whose lookup returns the first (and only) binding.
-/

/-- An entity occurrence as returned by the detector: spaCy's `ent` with
`start_char`, `end_char` (0-indexed half-open character offsets),
`label_` and `text`. -/
structure Ent where
  start_char : Nat
  end_char : Nat
  label_ : String
  text : String
deriving DecidableEq

/-- The `CUSTOM_LABELS` table of `doc_anonymizer.py` (lines 13-18). -/
def CUSTOM_LABELS : List (String × String) :=
  [("ORG", "[ORG_NAME]"), ("PERSON", "[PERSON]"),
   ("GPE", "[LOCATION]"), ("PRODUCT", "[PRODUCT_NAME]")]

/-- Membership-plus-lookup in `CUSTOM_LABELS`: `some placeholder` models
`label in CUSTOM_LABELS` followed by `CUSTOM_LABELS[label]`, `none` models
the label being unsupported. -/
def lookupLabel (lbl : String) : Option String :=
  (CUSTOM_LABELS.find? fun p => p.1 == lbl).map Prod.snd

/-- Python `dict` lookup on the entity mapping, modelled as first-match
lookup in an association list (`ent.text in entity_mapping` /
`entity_mapping[ent.text]`). -/
def mappingLookup (m : List (String × String)) (k : String) : Option String :=
  (m.find? fun p => p.1 == k).map Prod.snd

/-- Python `set.add`: insert unless already present (set semantics of the
global `unique_redactions`). -/
def setAdd (s : List (String × String × String)) (x : String × String × String) :
    List (String × String × String) :=
  if x ∈ s then s else s ++ [x]

/-- Python string splicing `new_text[:start] + placeholder + new_text[end:]`
(`doc_anonymizer.py` line 55). -/
def splice (text : List Char) (start stop : Nat) (placeholder : String) : List Char :=
  text.take start ++ placeholder.data ++ text.drop stop

/-- The process-wide mutable state of `doc_anonymizer.py`: the globals
`entity_mapping` (line 24) and `unique_redactions` (line 21). -/
structure AnonState where
  entity_mapping : List (String × String)
  unique_redactions : List (String × String × String)
deriving DecidableEq

/-- The state right after the `clear()` calls of the `__main__` block. -/
def AnonState.empty : AnonState := ⟨[], []⟩

/-- One iteration of the `for ent in reversed(doc.ents)` loop body of
`anonymize_text` (`doc_anonymizer.py` lines 40-55): label check, whitelist
check, mapping check with first-sighting insertion and audit recording,
then the splice. -/
def anonStep (wl : List String) (filename : String)
    (acc : AnonState × List Char) (ent : Ent) : AnonState × List Char :=
  match lookupLabel ent.label_ with
  | none => acc
  | some lp =>
    if ent.text ∈ wl then acc
    else
      match mappingLookup acc.1.entity_mapping ent.text with
      | none =>
        (⟨acc.1.entity_mapping ++ [(ent.text, lp)],
          setAdd acc.1.unique_redactions (filename, ent.text, lp)⟩,
         splice acc.2 ent.start_char ent.end_char lp)
      | some placeholder =>
        (acc.1, splice acc.2 ent.start_char ent.end_char placeholder)

/-- The function `anonymize_text(text, filename)` of `doc_anonymizer.py`
(lines 36-56).  `ents` is the detector output `doc.ents` for `text`, in
textual order; the loop walks it reversed.  Returns the updated global
state together with the returned `new_text`. -/
def anonymize_text (wl : List String) (filename : String) (ents : List Ent)
    (st : AnonState) (text : List Char) : AnonState × List Char :=
  ents.reverse.foldl (anonStep wl filename) (st, text)

/-- The `CUSTOM_LABELS` table of `multiformats_anonymizer.py` (lines 20-25);
it maps `ORG` to `[CLIENT_NAME]` instead of `[ORG_NAME]`. -/
def MF_CUSTOM_LABELS : List (String × String) :=
  [("ORG", "[CLIENT_NAME]"), ("PERSON", "[PERSON]"),
   ("GPE", "[LOCATION]"), ("PRODUCT", "[PRODUCT_NAME]")]

/-- Label lookup for the multiformats variant. -/
def mfLookupLabel (lbl : String) : Option String :=
  (MF_CUSTOM_LABELS.find? fun p => p.1 == lbl).map Prod.snd

/-- One iteration of the entity loop of `anonymize_text` in
`multiformats_anonymizer.py` (lines 34-38): no whitelist, no mapping, and
the replacement log is a plain list appended to on every occurrence. -/
def mfStep (acc : List (String × String) × List Char) (ent : Ent) :
    List (String × String) × List Char :=
  match mfLookupLabel ent.label_ with
  | none => acc
  | some placeholder =>
    (acc.1 ++ [(ent.text, placeholder)],
     splice acc.2 ent.start_char ent.end_char placeholder)

/-- The function `anonymize_text(text)` of `multiformats_anonymizer.py`
(lines 30-39), with the global `replacement_log` threaded explicitly. -/
def mf_anonymize_text (ents : List Ent) (log : List (String × String))
    (text : List Char) : List (String × String) × List Char :=
  ents.reverse.foldl mfStep (log, text)

/-- A PDF page as `redact_pdf` observes it: the detector output for
`page.get_text()` and the `page.search_for` results, modelled as an
association from a searched word to the list of matched area identifiers. -/
structure Page where
  ents : List Ent
  areas : List (String × List Nat)
deriving DecidableEq

/-- The `page.search_for(word)` primitive: the areas recorded for `word`,
empty when the page has none. -/
def searchFor (pg : Page) (w : String) : List Nat :=
  ((pg.areas.find? fun p => p.1 == w).map Prod.snd).getD []

/-- The state mutated by `redact_pdf` of `doc_anonymizer.py`: the global
`unique_redactions` set and the redaction annotations added to the
document's pages (one entry per `add_redact_annot` call). -/
structure PdfState where
  unique_redactions : List (String × String × String)
  annots : List Nat
deriving DecidableEq

/-- Body of the `for area in areas` loop of `redact_pdf`
(`doc_anonymizer.py` lines 140-142): add a redaction annotation and insert
the audit triple into the set. -/
def redactArea (filename w ph : String) (st : PdfState) (a : Nat) : PdfState :=
  ⟨setAdd st.unique_redactions (filename, w, ph), st.annots ++ [a]⟩

/-- Body of the `for word, label in entities` loop of `redact_pdf`
(lines 138-142).  The comprehension on line 137 keeps only supported
labels, modelled by the `lookupLabel` match. -/
def redactEnt (filename : String) (pg : Page) (st : PdfState) (ent : Ent) : PdfState :=
  match lookupLabel ent.label_ with
  | none => st
  | some ph => (searchFor pg ent.text).foldl (redactArea filename ent.text ph) st

/-- One page of `redact_pdf` (lines 135-143). -/
def redactPage (filename : String) (st : PdfState) (pg : Page) : PdfState :=
  pg.ents.foldl (redactEnt filename pg) st

/-- The function `redact_pdf(input_path, output_path, filename)` of
`doc_anonymizer.py` (lines 132-144), abstracted over I/O: the document is
the list of its pages.  Note the source consults no whitelist here. -/
def redact_pdf (filename : String) (pages : List Page) (st : PdfState) : PdfState :=
  pages.foldl (redactPage filename) st

/-- A file of a batch as the format adapters present it to the engine: its
name plus the editable text units (paragraph runs, cells, ...), each with
the detector output for that unit. -/
structure BatchFile where
  name : String
  units : List (List Char × List Ent)
deriving DecidableEq

/-- Processing of one file's text units: every adapter
(`anonymize_docx_full`, `anonymize_excel`) feeds each unit through
`anonymize_text(run.text, filename)`, threading the process-wide state. -/
def processUnits (wl : List String) (name : String) :
    List (List Char × List Ent) → AnonState → AnonState × List (List Char)
  | [], st => (st, [])
  | (t, ents) :: us, st =>
    let r := anonymize_text wl name ents st t
    let rest := processUnits wl name us r.1
    (rest.1, r.2 :: rest.2)

/-- One file of a batch: all its text units, under its filename. -/
def processFile (wl : List String) (f : BatchFile) (st : AnonState) :
    AnonState × List (List Char) :=
  processUnits wl f.name f.units st

/-- The function `process_folder` of `doc_anonymizer.py` (lines 146-171),
restricted to the state it threads through the per-file calls: the global
mapping and audit set are passed on from file to file and never cleared
between files. -/
def process_folder (wl : List String) (files : List BatchFile) (st : AnonState) :
    AnonState × List (String × List (List Char)) :=
  match files with
  | [] => (st, [])
  | f :: fs =>
    let r := processFile wl f st
    let rest := process_folder wl fs r.1
    (rest.1, (f.name, r.2) :: rest.2)

/-- Lexicographic key of an audit triple, giving Python's tuple comparison
`(filename, original, replacement)` used by `sorted(unique_redactions)`. -/
def tripleKey (a : String × String × String) : Lex (String × Lex (String × String)) :=
  toLex (a.1, toLex (a.2.1, a.2.2))

/-- The order `sorted` uses on audit triples. -/
def tripleLE (a b : String × String × String) : Prop :=
  tripleKey a ≤ tripleKey b

instance : DecidableRel tripleLE := fun a b =>
  inferInstanceAs (Decidable (tripleKey a ≤ tripleKey b))

instance : IsTotal (String × String × String) tripleLE :=
  ⟨fun a b => le_total (tripleKey a) (tripleKey b)⟩

instance : IsTrans (String × String × String) tripleLE :=
  ⟨fun _ _ _ h1 h2 => le_trans h1 h2⟩

/-- The function `save_replacement_log` of `doc_anonymizer.py`
(lines 58-65) as the row matrix it writes: the header row, then one row
per element of `sorted(unique_redactions)`, each carrying the
`datetime.now()` string of that iteration.  The clock is an oracle `now`
giving the timestamp string of the i-th loop iteration. -/
def save_replacement_log (now : Nat → String)
    (redactions : List (String × String × String)) : List (List String) :=
  ["Timestamp", "Filename", "Original", "Replacement"] ::
    ((List.insertionSort tripleLE redactions).enum.map fun p =>
      [now p.1, p.2.1, p.2.2.1, p.2.2.2])

/-! Helper lemmas. -/

theorem foldl_preserve {α β : Type} (f : α → β → α) (P : α → Prop)
    (h : ∀ a b, P a → P (f a b)) : ∀ (l : List β) (a : α), P a → P (l.foldl f a)
  | [], _, ha => ha
  | b :: l, a, ha => foldl_preserve f P h l (f a b) (h a b ha)

theorem mappingLookup_append_left {m m' : List (String × String)} {s p : String}
    (h : mappingLookup m s = some p) : mappingLookup (m ++ m') s = some p := by
  unfold mappingLookup at *
  rcases ho : m.find? (fun q => q.1 == s) with _ | a
  · rw [ho] at h; simp at h
  · rw [ho] at h
    rw [List.find?_append, ho]
    simpa using h

theorem mappingLookup_append_none {m m' : List (String × String)} {s : String}
    (h : mappingLookup m s = none) :
    mappingLookup (m ++ m') s = mappingLookup m' s := by
  unfold mappingLookup at *
  rcases ho : m.find? (fun q => q.1 == s) with _ | a
  · rw [List.find?_append, ho, Option.none_or]
  · rw [ho] at h; simp at h

theorem mappingLookup_single_ne {k v s : String} (h : k ≠ s) :
    mappingLookup [(k, v)] s = none := by
  have hb : (k == s) = false := beq_eq_false_iff_ne.mpr h
  simp [mappingLookup, List.find?, hb]

theorem mem_setAdd_self (s : List (String × String × String)) (x) : x ∈ setAdd s x := by
  unfold setAdd
  split
  · assumption
  · simp

theorem mem_setAdd_iff {s : List (String × String × String)} {x y} :
    y ∈ setAdd s x ↔ y ∈ s ∨ y = x := by
  unfold setAdd
  split
  · rename_i hx
    constructor
    · exact Or.inl
    · rintro (h | rfl) <;> assumption
  · simp

theorem setAdd_nodup {s : List (String × String × String)} {x} (h : s.Nodup) :
    (setAdd s x).Nodup := by
  unfold setAdd
  split
  · exact h
  · rename_i hx
    simp [List.nodup_append, h, hx]

theorem setAdd_idem (s : List (String × String × String)) (x) :
    setAdd (setAdd s x) x = setAdd s x := by
  by_cases hs : x ∈ s <;> simp [setAdd, hs]

theorem filter_setAdd_of_neg {s : List (String × String × String)} {x}
    {P : String × String × String → Bool} (hx : P x = false) :
    (setAdd s x).filter P = s.filter P := by
  unfold setAdd
  split
  · rfl
  · simp [List.filter_append, hx]

theorem anonStep_mapping_mono (wl : List String) (s p : String) :
    ∀ (fn : String) (acc : AnonState × List Char) (e : Ent),
      mappingLookup acc.1.entity_mapping s = some p →
      mappingLookup (anonStep wl fn acc e).1.entity_mapping s = some p := by
  intro fn acc e hacc
  unfold anonStep
  rcases hl : lookupLabel e.label_ with _ | lp
  · exact hacc
  · by_cases hw : e.text ∈ wl
    · simp only [if_pos hw]
      exact hacc
    · simp only [if_neg hw]
      rcases hm : mappingLookup acc.1.entity_mapping e.text with _ | q
      · exact mappingLookup_append_left hacc
      · exact hacc

theorem anonStep_new (wl : List String) (fn : String) (acc : AnonState × List Char)
    (e : Ent) (lp : String) (hl : lookupLabel e.label_ = some lp)
    (hw : e.text ∉ wl) (hm : mappingLookup acc.1.entity_mapping e.text = none) :
    anonStep wl fn acc e
      = (⟨acc.1.entity_mapping ++ [(e.text, lp)],
          setAdd acc.1.unique_redactions (fn, e.text, lp)⟩,
         splice acc.2 e.start_char e.end_char lp) := by
  unfold anonStep
  rw [hl]
  simp only [if_neg hw]
  rw [hm]

theorem anonStep_seen (wl : List String) (fn : String) (acc : AnonState × List Char)
    (e : Ent) (lp p : String) (hl : lookupLabel e.label_ = some lp)
    (hw : e.text ∉ wl) (hm : mappingLookup acc.1.entity_mapping e.text = some p) :
    anonStep wl fn acc e = (acc.1, splice acc.2 e.start_char e.end_char p) := by
  unfold anonStep
  rw [hl]
  simp only [if_neg hw]
  rw [hm]

theorem anonymize_text_preserve (wl : List String) (P : AnonState → Prop)
    (hstep : ∀ (fn : String) (acc : AnonState × List Char) (e : Ent),
      P acc.1 → P (anonStep wl fn acc e).1) :
    ∀ (fn : String) (ents : List Ent) (st : AnonState) (t : List Char),
      P st → P (anonymize_text wl fn ents st t).1 := by
  intro fn ents st t h
  exact foldl_preserve (anonStep wl fn) (fun acc => P acc.1)
    (fun a b => hstep fn a b) ents.reverse (st, t) h

theorem processFile_preserve (wl : List String) (P : AnonState → Prop)
    (hstep : ∀ (fn : String) (acc : AnonState × List Char) (e : Ent),
      P acc.1 → P (anonStep wl fn acc e).1) :
    ∀ (f : BatchFile) (st : AnonState), P st → P (processFile wl f st).1 := by
  have hu : ∀ (name : String) (units : List (List Char × List Ent)) (st : AnonState),
      P st → P (processUnits wl name units st).1 := by
    intro name units
    induction units with
    | nil =>
      intro st h
      simpa [processUnits] using h
    | cons u us ih =>
      obtain ⟨t, ents⟩ := u
      intro st h
      simp only [processUnits]
      exact ih _ (anonymize_text_preserve wl P hstep name ents st t h)
  intro f st h
  exact hu f.name f.units st h

theorem process_folder_preserve (wl : List String) (P : AnonState → Prop)
    (hstep : ∀ (fn : String) (acc : AnonState × List Char) (e : Ent),
      P acc.1 → P (anonStep wl fn acc e).1) :
    ∀ (files : List BatchFile) (st : AnonState), P st → P (process_folder wl files st).1 := by
  intro files
  induction files with
  | nil =>
    intro st h
    simpa [process_folder] using h
  | cons f fs ih =>
    intro st h
    simp only [process_folder]
    exact ih _ (processFile_preserve wl P hstep f st h)

theorem mappingLookup_single_self (k v : String) : mappingLookup [(k, v)] k = some v := by
  simp [mappingLookup, List.find?]

theorem filter_setAdd_singleton {l : List (String × String × String)} {x}
    {P : String × String × String → Bool} (hx : P x = true) (h : l.filter P = []) :
    (setAdd l x).filter P = [x] := by
  have hxs : x ∉ l := by
    intro hmem
    have hin : x ∈ l.filter P := List.mem_filter.mpr ⟨hmem, hx⟩
    rw [h] at hin
    cases hin
  unfold setAdd
  rw [if_neg hxs, List.filter_append, h, List.nil_append]
  simp [List.filter, hx]

theorem anonStep_audit_once (wl : List String) (s : String) :
    ∀ (fn : String) (acc : AnonState × List Char) (e : Ent),
      ((mappingLookup acc.1.entity_mapping s = none →
          acc.1.unique_redactions.filter (fun r => r.2.1 == s) = [])
        ∧ (acc.1.unique_redactions.filter (fun r => r.2.1 == s)).length ≤ 1) →
      ((mappingLookup (anonStep wl fn acc e).1.entity_mapping s = none →
          (anonStep wl fn acc e).1.unique_redactions.filter (fun r => r.2.1 == s) = [])
        ∧ ((anonStep wl fn acc e).1.unique_redactions.filter
            (fun r => r.2.1 == s)).length ≤ 1) := by
  intro fn acc e h
  unfold anonStep
  rcases hl : lookupLabel e.label_ with _ | lp
  · exact h
  · by_cases hw : e.text ∈ wl
    · simp only [if_pos hw]
      exact h
    · simp only [if_neg hw]
      rcases hm : mappingLookup acc.1.entity_mapping e.text with _ | q
      · show (mappingLookup (acc.1.entity_mapping ++ [(e.text, lp)]) s = none →
            ((setAdd acc.1.unique_redactions (fn, e.text, lp)).filter
              (fun r => r.2.1 == s)) = [])
          ∧ ((setAdd acc.1.unique_redactions (fn, e.text, lp)).filter
              (fun r => r.2.1 == s)).length ≤ 1
        by_cases he : e.text = s
        · subst he
          have hf := h.1 hm
          have hx : ((fn, e.text, lp).2.1 == e.text) = true := by simp
          constructor
          · intro hnone
            rw [mappingLookup_append_none hm, mappingLookup_single_self] at hnone
            cases hnone
          · rw [filter_setAdd_singleton hx hf]
            simp
        · have hx : ((fn, e.text, lp).2.1 == s) = false := beq_eq_false_iff_ne.mpr he
          constructor
          · intro hnone
            rw [filter_setAdd_of_neg hx]
            apply h.1
            rcases hms : mappingLookup acc.1.entity_mapping s with _ | p
            · rfl
            · exfalso
              rw [mappingLookup_append_left hms] at hnone
              cases hnone
          · rw [filter_setAdd_of_neg hx]
            exact h.2
      · exact h

theorem count_eq_one_of_nodup_mem {l : List (String × String × String)}
    {x : String × String × String} (hn : l.Nodup) (hm : x ∈ l) : l.count x = 1 := by
  induction l with
  | nil => cases hm
  | cons b l ih =>
    rw [List.count_cons]
    rcases List.mem_cons.mp hm with rfl | hx
    · have hnb : x ∉ l := (List.nodup_cons.mp hn).1
      rw [List.count_eq_zero.mpr hnb]
      simp
    · have hxb : (b == x) = false := by
        apply beq_eq_false_iff_ne.mpr
        intro hbe
        exact (List.nodup_cons.mp hn).1 (hbe.symm ▸ hx)
      rw [ih (List.nodup_cons.mp hn).2 hx, hxb]
      simp

theorem foldl_redactArea_red (fn w ph : String) (l : List Nat) (st : PdfState) :
    (l.foldl (redactArea fn w ph) st).unique_redactions
      = if l.isEmpty then st.unique_redactions
        else setAdd st.unique_redactions (fn, w, ph) := by
  induction l generalizing st with
  | nil => rfl
  | cons a l ih =>
    rw [List.foldl_cons, ih]
    have hred : (redactArea fn w ph st a).unique_redactions
        = setAdd st.unique_redactions (fn, w, ph) := rfl
    cases hl : l.isEmpty <;> simp [hred, setAdd_idem]

theorem mem_redactEnt_iff {fn : String} {pg : Page} {st : PdfState} {e : Ent}
    {y : String × String × String} :
    y ∈ (redactEnt fn pg st e).unique_redactions ↔
      y ∈ st.unique_redactions
        ∨ ∃ ph, lookupLabel e.label_ = some ph
            ∧ searchFor pg e.text ≠ [] ∧ y = (fn, e.text, ph) := by
  cases hl : lookupLabel e.label_ with
  | none => simp [redactEnt, hl]
  | some ph =>
    simp only [redactEnt, hl]
    rw [foldl_redactArea_red]
    cases hs : (searchFor pg e.text).isEmpty
    · have hne : searchFor pg e.text ≠ [] := List.isEmpty_eq_false.mp hs
      simp [mem_setAdd_iff, hne]
    · have he : searchFor pg e.text = [] := List.isEmpty_iff.mp (by rw [hs])
      simp [he]

theorem mem_foldl_redactEnt_iff (fn : String) (pg : Page)
    (y : String × String × String) :
    ∀ (l : List Ent) (st : PdfState),
      y ∈ (l.foldl (redactEnt fn pg) st).unique_redactions ↔
        y ∈ st.unique_redactions
          ∨ ∃ e ∈ l, ∃ ph, lookupLabel e.label_ = some ph
              ∧ searchFor pg e.text ≠ [] ∧ y = (fn, e.text, ph) := by
  intro l
  induction l with
  | nil =>
    intro st
    simp
  | cons e l ih =>
    intro st
    rw [List.foldl_cons, ih, mem_redactEnt_iff]
    simp only [List.mem_cons]
    constructor
    · rintro ((h | h) | ⟨e', he', hc⟩)
      · exact Or.inl h
      · exact Or.inr ⟨e, Or.inl rfl, h⟩
      · exact Or.inr ⟨e', Or.inr he', hc⟩
    · rintro (h | ⟨e', (rfl | he'), hc⟩)
      · exact Or.inl (Or.inl h)
      · exact Or.inl (Or.inr hc)
      · exact Or.inr ⟨e', he', hc⟩

theorem mem_redactPage_iff (fn : String) (st : PdfState) (pg : Page)
    (y : String × String × String) :
    y ∈ (redactPage fn st pg).unique_redactions ↔
      y ∈ st.unique_redactions
        ∨ ∃ e ∈ pg.ents, ∃ ph, lookupLabel e.label_ = some ph
            ∧ searchFor pg e.text ≠ [] ∧ y = (fn, e.text, ph) := by
  unfold redactPage
  exact mem_foldl_redactEnt_iff fn pg y pg.ents st

theorem mem_redact_pdf_iff (fn : String) (y : String × String × String) :
    ∀ (pages : List Page) (st : PdfState),
      y ∈ (redact_pdf fn pages st).unique_redactions ↔
        y ∈ st.unique_redactions
          ∨ ∃ pg ∈ pages, ∃ e ∈ pg.ents, ∃ ph, lookupLabel e.label_ = some ph
              ∧ searchFor pg e.text ≠ [] ∧ y = (fn, e.text, ph) := by
  intro pages
  induction pages with
  | nil =>
    intro st
    simp [redact_pdf]
  | cons pg pages ih =>
    intro st
    rw [show redact_pdf fn (pg :: pages) st
        = redact_pdf fn pages (redactPage fn st pg) from rfl,
      ih, mem_redactPage_iff]
    simp only [List.mem_cons]
    constructor
    · rintro ((h | ⟨e, he, hc⟩) | ⟨pg', hpg', rest⟩)
      · exact Or.inl h
      · exact Or.inr ⟨pg, Or.inl rfl, e, he, hc⟩
      · exact Or.inr ⟨pg', Or.inr hpg', rest⟩
    · rintro (h | ⟨pg', (rfl | hpg'), rest⟩)
      · exact Or.inl (Or.inl h)
      · exact Or.inl (Or.inr rest)
      · exact Or.inr ⟨pg', hpg', rest⟩

theorem redact_pdf_nodup (fn : String) :
    ∀ (pages : List Page) (st : PdfState),
      st.unique_redactions.Nodup → (redact_pdf fn pages st).unique_redactions.Nodup := by
  have harea : ∀ (w ph : String) (l : List Nat) (st : PdfState),
      st.unique_redactions.Nodup →
      (l.foldl (redactArea fn w ph) st).unique_redactions.Nodup := by
    intro w ph l st h
    rw [foldl_redactArea_red]
    cases hl : l.isEmpty
    · exact setAdd_nodup h
    · exact h
  have hent : ∀ (pg : Page) (st : PdfState) (e : Ent),
      st.unique_redactions.Nodup → (redactEnt fn pg st e).unique_redactions.Nodup := by
    intro pg st e h
    cases hl : lookupLabel e.label_ with
    | none => simpa [redactEnt, hl] using h
    | some ph =>
      simp only [redactEnt, hl]
      exact harea e.text ph (searchFor pg e.text) st h
  have hpage : ∀ (pg : Page) (st : PdfState),
      st.unique_redactions.Nodup → (redactPage fn st pg).unique_redactions.Nodup := by
    intro pg st h
    exact foldl_preserve (redactEnt fn pg) (fun s => s.unique_redactions.Nodup)
      (fun a b ha => hent pg a b ha) pg.ents st h
  intro pages st h
  exact foldl_preserve (redactPage fn) (fun s => s.unique_redactions.Nodup)
    (fun a b ha => hpage b a ha) pages st h

/-! The claims. -/

/-- C1: within one session `anonymize_text` never overwrites an existing
mapping entry (an already-mapped surface string keeps its placeholder across
any further processing), and a sighting of an already-mapped surface string
splices exactly the stored placeholder, regardless of the category the
detector assigned this time (first sighting wins). -/
theorem spec_c1 :
    (∀ (wl : List String) (fn : String) (ents : List Ent) (st : AnonState)
        (t : List Char) (s p : String),
        mappingLookup st.entity_mapping s = some p →
        mappingLookup (anonymize_text wl fn ents st t).1.entity_mapping s = some p)
    ∧ (∀ (wl : List String) (fn : String) (st : AnonState) (t : List Char)
        (e : Ent) (lp p : String),
        lookupLabel e.label_ = some lp → e.text ∉ wl →
        mappingLookup st.entity_mapping e.text = some p →
        anonStep wl fn (st, t) e = (st, splice t e.start_char e.end_char p)) := by
  constructor
  · intro wl fn ents st t s p h
    exact anonymize_text_preserve wl
      (fun st' => mappingLookup st'.entity_mapping s = some p)
      (anonStep_mapping_mono wl s p) fn ents st t h
  · intro wl fn st t e lp p hl hw hm
    unfold anonStep
    rw [hl]
    simp only [if_neg hw]
    rw [hm]

/-- Witness for C1 at a concrete input: "Acme" already mapped to
`[ORG_NAME]` keeps that placeholder even when re-sighted as `PERSON`. -/
theorem spec_c1_witness :
    mappingLookup (anonymize_text [] "b.docx" [⟨0, 4, "PERSON", "Acme"⟩]
      ⟨[("Acme", "[ORG_NAME]")], []⟩ "Acme".data).1.entity_mapping "Acme"
      = some "[ORG_NAME]"
    ∧ anonStep [] "b.docx" (⟨[("Acme", "[ORG_NAME]")], []⟩, "Acme".data)
        ⟨0, 4, "PERSON", "Acme"⟩
      = (⟨[("Acme", "[ORG_NAME]")], []⟩, splice "Acme".data 0 4 "[ORG_NAME]") :=
  ⟨spec_c1.1 [] "b.docx" [⟨0, 4, "PERSON", "Acme"⟩] ⟨[("Acme", "[ORG_NAME]")], []⟩
      "Acme".data "Acme" "[ORG_NAME]" (by decide),
   spec_c1.2 [] "b.docx" ⟨[("Acme", "[ORG_NAME]")], []⟩ "Acme".data
      ⟨0, 4, "PERSON", "Acme"⟩ "[PERSON]" "[ORG_NAME]" (by decide) (by decide) (by decide)⟩

/-- C6: an occurrence whose category is outside the keys of `CUSTOM_LABELS`
is a complete no-op (text, mapping and audit store untouched), and deleting
it from the occurrence list does not change the result, so the remaining
occurrences are still processed (no error, no abort). -/
theorem spec_c6 :
    (∀ (wl : List String) (fn : String) (acc : AnonState × List Char) (e : Ent),
        lookupLabel e.label_ = none → anonStep wl fn acc e = acc)
    ∧ (∀ (wl : List String) (fn : String) (l1 l2 : List Ent) (e : Ent)
        (st : AnonState) (t : List Char),
        lookupLabel e.label_ = none →
        anonymize_text wl fn (l1 ++ e :: l2) st t = anonymize_text wl fn (l1 ++ l2) st t) := by
  have hstep : ∀ (wl : List String) (fn : String) (acc : AnonState × List Char) (e : Ent),
      lookupLabel e.label_ = none → anonStep wl fn acc e = acc := by
    intro wl fn acc e h
    unfold anonStep
    rw [h]
  refine ⟨hstep, ?_⟩
  intro wl fn l1 l2 e st t h
  unfold anonymize_text
  rw [List.reverse_append, List.reverse_cons, List.reverse_append]
  rw [List.foldl_append, List.foldl_append, List.foldl_append]
  congr 1
  simp only [List.foldl_cons, List.foldl_nil]
  rw [hstep wl fn _ e h]

/-- Witness for C6 at a concrete input: a `DATE` occurrence is skipped and
the `ORG` occurrence after it is still redacted. -/
theorem spec_c6_witness :
    anonStep [] "a.docx" (AnonState.empty, "May 2024".data) ⟨0, 8, "DATE", "May 2024"⟩
      = (AnonState.empty, "May 2024".data)
    ∧ anonymize_text [] "a.docx"
        ([⟨0, 3, "DATE", "May"⟩] ++ ⟨4, 8, "DATE", "2024"⟩ :: [⟨9, 13, "ORG", "Acme"⟩])
        AnonState.empty "May 2024 Acme".data
      = anonymize_text [] "a.docx" ([⟨0, 3, "DATE", "May"⟩] ++ [⟨9, 13, "ORG", "Acme"⟩])
        AnonState.empty "May 2024 Acme".data :=
  ⟨spec_c6.1 [] "a.docx" (AnonState.empty, "May 2024".data) ⟨0, 8, "DATE", "May 2024"⟩
      (by decide),
   spec_c6.2 [] "a.docx" [⟨0, 3, "DATE", "May"⟩] [⟨9, 13, "ORG", "Acme"⟩]
      ⟨4, 8, "DATE", "2024"⟩ AnonState.empty "May 2024 Acme".data (by decide)⟩

/-- C4: processing right-to-left keeps left offsets valid: for two
non-overlapping occurrences (left one ending before the right one starts)
the result is the input with each span replaced by its placeholder in
place, and at the spec's concrete input "Acme met Bob" the output is
exactly "[ORG_NAME] met [PERSON]". -/
theorem spec_c4 :
    (∀ (fn : String) (t : List Char) (e1 e2 : Ent) (p1 p2 : String),
        lookupLabel e1.label_ = some p1 → lookupLabel e2.label_ = some p2 →
        e1.text ≠ e2.text →
        e1.start_char ≤ e1.end_char → e1.end_char ≤ e2.start_char →
        e2.start_char ≤ t.length →
        (anonymize_text [] fn [e1, e2] AnonState.empty t).2
          = t.take e1.start_char ++ p1.data
            ++ (t.take e2.start_char).drop e1.end_char
            ++ p2.data ++ t.drop e2.end_char)
    ∧ (anonymize_text [] "demo.docx"
        [⟨0, 4, "ORG", "Acme"⟩, ⟨9, 12, "PERSON", "Bob"⟩]
        AnonState.empty "Acme met Bob".data).2 = "[ORG_NAME] met [PERSON]".data := by
  constructor
  · intro fn t e1 e2 p1 p2 h1 h2 hne hs1 hm hs2
    have hlen : (t.take e2.start_char).length = e2.start_char := by
      simp [List.length_take, Nat.min_eq_left hs2]
    have step2 : anonStep [] fn (AnonState.empty, t) e2
        = (⟨[(e2.text, p2)], setAdd [] (fn, e2.text, p2)⟩,
           splice t e2.start_char e2.end_char p2) :=
      anonStep_new [] fn (AnonState.empty, t) e2 p2 h2 (List.not_mem_nil e2.text) rfl
    have step1 : anonStep [] fn
        (⟨[(e2.text, p2)], setAdd [] (fn, e2.text, p2)⟩,
         splice t e2.start_char e2.end_char p2) e1
        = (⟨[(e2.text, p2), (e1.text, p1)],
            setAdd (setAdd [] (fn, e2.text, p2)) (fn, e1.text, p1)⟩,
           splice (splice t e2.start_char e2.end_char p2)
             e1.start_char e1.end_char p1) :=
      anonStep_new [] fn
        (⟨[(e2.text, p2)], setAdd [] (fn, e2.text, p2)⟩,
         splice t e2.start_char e2.end_char p2) e1 p1 h1
        (List.not_mem_nil e1.text) (mappingLookup_single_ne (Ne.symm hne))
    have hfold : (anonymize_text [] fn [e1, e2] AnonState.empty t).2
        = splice (splice t e2.start_char e2.end_char p2)
            e1.start_char e1.end_char p1 := by
      unfold anonymize_text
      simp only [List.reverse_cons, List.reverse_nil, List.nil_append,
        List.cons_append, List.foldl_cons, List.foldl_nil]
      rw [step2, step1]
    rw [hfold]
    unfold splice
    rw [List.take_append_of_le_length
        (show e1.start_char ≤ (t.take e2.start_char ++ p2.data).length by
          rw [List.length_append, hlen]
          exact le_trans (le_trans hs1 hm) (Nat.le_add_right _ _)),
      List.take_append_of_le_length
        (show e1.start_char ≤ (t.take e2.start_char).length by
          rw [hlen]; exact le_trans hs1 hm),
      List.take_take, Nat.min_eq_left (le_trans hs1 hm),
      List.drop_append_of_le_length
        (show e1.end_char ≤ (t.take e2.start_char ++ p2.data).length by
          rw [List.length_append, hlen]
          exact le_trans hm (Nat.le_add_right _ _)),
      List.drop_append_of_le_length
        (show e1.end_char ≤ (t.take e2.start_char).length by
          rw [hlen]; exact hm)]
    simp [List.append_assoc]
  · decide

/-- Witness for C4 at the spec's concrete input, via the general statement:
left span (0,4) with `[ORG_NAME]`, right span (9,12) with `[PERSON]`. -/
theorem spec_c4_witness :
    (anonymize_text [] "w.docx"
      [⟨0, 4, "ORG", "Acme"⟩, ⟨9, 12, "PERSON", "Bob"⟩]
      AnonState.empty "Acme met Bob".data).2
    = ("Acme met Bob".data).take 0 ++ "[ORG_NAME]".data
      ++ (("Acme met Bob".data).take 9).drop 4
      ++ "[PERSON]".data ++ ("Acme met Bob".data).drop 12 :=
  spec_c4.1 "w.docx" "Acme met Bob".data ⟨0, 4, "ORG", "Acme"⟩
    ⟨9, 12, "PERSON", "Bob"⟩ "[ORG_NAME]" "[PERSON]"
    (by decide) (by decide) (by decide) (by decide) (by decide) (by decide)

/-- C2 as evaluated on the code: `anonymize_text` honors the whitelist
(here a whitelisted "Acme" occurrence leaves text, mapping and audit store
untouched), but `redact_pdf` never consults the whitelist: on a page whose
detector output contains the whitelisted "Acme" with one matched area, it
still adds a redaction annotation and records an audit triple with "Acme"
as original text. -/
theorem spec_c2 :
    ("Acme" ∈ (["Acme"] : List String))
    ∧ anonymize_text ["Acme"] "a.docx" [⟨0, 4, "ORG", "Acme"⟩]
        AnonState.empty "Acme HQ".data = (AnonState.empty, "Acme HQ".data)
    ∧ (redact_pdf "a.pdf" [⟨[⟨0, 4, "ORG", "Acme"⟩], [("Acme", [0])]⟩]
        ⟨[], []⟩).unique_redactions = [("a.pdf", "Acme", "[ORG_NAME]")]
    ∧ (redact_pdf "a.pdf" [⟨[⟨0, 4, "ORG", "Acme"⟩], [("Acme", [0])]⟩]
        ⟨[], []⟩).annots = [0] :=
  ⟨by decide, by decide, by decide, by decide⟩

/-- C3 fails as stated: the multiformats variant's `anonymize_text` logs
with list semantics, so two occurrences of the same substitution in one
file yield two identical audit rows. -/
theorem spec_c3_counterexample :
    (mf_anonymize_text [⟨0, 4, "ORG", "Acme"⟩, ⟨9, 13, "ORG", "Acme"⟩]
      [] "Acme and Acme".data).1
      = [("Acme", "[CLIENT_NAME]"), ("Acme", "[CLIENT_NAME]")]
    ∧ (mf_anonymize_text [⟨0, 4, "ORG", "Acme"⟩, ⟨9, 13, "ORG", "Acme"⟩]
        [] "Acme and Acme".data).1.count ("Acme", "[CLIENT_NAME]") = 2 :=
  ⟨by decide, by decide⟩

/-- C3 amended: in the `doc_anonymizer` variant the audit store has set
semantics: inserting the same triple any positive number of times equals
inserting it once, and `anonymize_text` keeps the store duplicate-free. -/
theorem spec_c3 :
    (∀ (s : List (String × String × String)) (x : String × String × String)
        (n : Nat), 0 < n → (fun t => setAdd t x)^[n] s = setAdd s x)
    ∧ (∀ (wl : List String) (fn : String) (ents : List Ent) (st : AnonState)
        (t : List Char), st.unique_redactions.Nodup →
        (anonymize_text wl fn ents st t).1.unique_redactions.Nodup) := by
  constructor
  · intro s x n hn
    obtain ⟨m, rfl⟩ : ∃ m, n = m + 1 := ⟨n - 1, (Nat.succ_pred_eq_of_pos hn).symm⟩
    induction m with
    | zero => rfl
    | succ k ih =>
      rw [Function.iterate_succ_apply', ih (Nat.succ_pos k)]
      exact setAdd_idem s x
  · intro wl fn ents st t h
    refine anonymize_text_preserve wl (fun st' => st'.unique_redactions.Nodup)
      ?_ fn ents st t h
    intro fn' acc e hacc
    unfold anonStep
    rcases hl : lookupLabel e.label_ with _ | lp
    · exact hacc
    · by_cases hw : e.text ∈ wl
      · simp only [if_pos hw]
        exact hacc
      · simp only [if_neg hw]
        rcases hm : mappingLookup acc.1.entity_mapping e.text with _ | q
        · exact setAdd_nodup hacc
        · exact hacc

/-- Witness for C3 amended: the very input that duplicates in the
multiformats variant yields a duplicate-free audit store here, and two
insertions of one triple equal one insertion. -/
theorem spec_c3_witness :
    (fun t => setAdd t ("a.docx", "Acme", "[ORG_NAME]"))^[2] []
      = setAdd [] ("a.docx", "Acme", "[ORG_NAME]")
    ∧ (anonymize_text [] "a.docx"
        [⟨0, 4, "ORG", "Acme"⟩, ⟨9, 13, "ORG", "Acme"⟩]
        AnonState.empty "Acme and Acme".data).1.unique_redactions.Nodup :=
  ⟨spec_c3.1 [] ("a.docx", "Acme", "[ORG_NAME]") 2 (by decide),
   spec_c3.2 [] "a.docx" [⟨0, 4, "ORG", "Acme"⟩, ⟨9, 13, "ORG", "Acme"⟩]
     AnonState.empty "Acme and Acme".data (by decide)⟩

/-- C5: the surface-to-placeholder mapping is threaded through the whole
batch and never cleared between files, so an entry created (or present) at
any point survives to the end of `process_folder`; concretely, "Acme"
sighted as `ORG` in the first file and as `PERSON` in the second receives
the identical placeholder `[ORG_NAME]` in both output files. -/
theorem spec_c5 :
    (∀ (wl : List String) (files : List BatchFile) (st : AnonState) (s p : String),
        mappingLookup st.entity_mapping s = some p →
        mappingLookup (process_folder wl files st).1.entity_mapping s = some p)
    ∧ (process_folder []
        [⟨"a.docx", [("Acme Corp".data, [⟨0, 4, "ORG", "Acme"⟩])]⟩,
         ⟨"b.docx", [("Acme again".data, [⟨0, 4, "PERSON", "Acme"⟩])]⟩]
        AnonState.empty).2
      = [("a.docx", ["[ORG_NAME] Corp".data]),
         ("b.docx", ["[ORG_NAME] again".data])] := by
  constructor
  · intro wl files st s p h
    exact process_folder_preserve wl
      (fun st' => mappingLookup st'.entity_mapping s = some p)
      (anonStep_mapping_mono wl s p) files st h
  · decide

/-- Witness for C5 at a concrete input: a pre-existing mapping entry for
"Acme" survives a whole batch that sights "Acme" again under another
category. -/
theorem spec_c5_witness :
    mappingLookup (process_folder []
      [⟨"c.docx", [("Acme".data, [⟨0, 4, "PERSON", "Acme"⟩])]⟩]
      ⟨[("Acme", "[ORG_NAME]")], []⟩).1.entity_mapping "Acme" = some "[ORG_NAME]" :=
  spec_c5.1 [] [⟨"c.docx", [("Acme".data, [⟨0, 4, "PERSON", "Acme"⟩])]⟩]
    ⟨[("Acme", "[ORG_NAME]")], []⟩ "Acme" "[ORG_NAME]" (by decide)

/-- C7 fails as stated: every row of the log carries the wall-clock
timestamp of the moment it is written, so two runs over the identical
redaction set but at different times produce different log output. -/
theorem spec_c7_counterexample :
    save_replacement_log (fun _ => "2025-01-01 09:00:00")
      [("a.docx", "Acme", "[ORG_NAME]")]
      ≠ save_replacement_log (fun _ => "2025-01-01 09:00:01")
          [("a.docx", "Acme", "[ORG_NAME]")] := by
  decide

/-- C7 amended: apart from the per-row timestamp column the log is
deterministic in the recorded substitutions, its data rows are exactly the
redaction triples sorted by (file, original, replacement), and that sort
is a sorted permutation of the audit set. -/
theorem spec_c7 :
    (∀ (now now' : Nat → String) (redactions : List (String × String × String)),
        (save_replacement_log now redactions).map (List.drop 1)
          = (save_replacement_log now' redactions).map (List.drop 1))
    ∧ (∀ (now : Nat → String) (redactions : List (String × String × String)),
        ((save_replacement_log now redactions).tail).map (List.drop 1)
          = (List.insertionSort tripleLE redactions).map (fun r => [r.1, r.2.1, r.2.2]))
    ∧ (∀ (redactions : List (String × String × String)),
        (List.insertionSort tripleLE redactions).Sorted tripleLE
        ∧ (List.insertionSort tripleLE redactions).Perm redactions) := by
  refine ⟨?_, ?_, ?_⟩
  · intro now now' r
    simp only [save_replacement_log, List.map_cons, List.map_map]
    rfl
  · intro now r
    simp only [save_replacement_log, List.tail_cons, List.map_map]
    rw [show ((List.drop 1) ∘ fun p : Nat × (String × String × String) =>
          [now p.1, p.2.1, p.2.2.1, p.2.2.2])
        = (fun r : String × String × String => [r.1, r.2.1, r.2.2]) ∘ Prod.snd from rfl]
    rw [← List.map_map]
    congr 1
    exact List.enumFrom_map_snd 0 _
  · intro r
    exact ⟨List.sorted_insertionSort tripleLE r, List.perm_insertionSort tripleLE r⟩

/-- C9 fails as stated: on a page whose detector output contains the
supported pair ("Acme", `[ORG_NAME]`) but whose search finds zero areas
for "Acme", `redact_pdf` records no audit record at all, not exactly
one. -/
theorem spec_c9_counterexample :
    lookupLabel "ORG" = some "[ORG_NAME]"
    ∧ (redact_pdf "b.pdf" [⟨[⟨0, 4, "ORG", "Acme"⟩], []⟩]
        ⟨[], []⟩).unique_redactions = []
    ∧ ¬ ((redact_pdf "b.pdf" [⟨[⟨0, 4, "ORG", "Acme"⟩], []⟩]
        ⟨[], []⟩).unique_redactions.count ("b.pdf", "Acme", "[ORG_NAME]") = 1) :=
  ⟨by decide, by decide, by decide⟩

/-- C9 amended: the audit set stays duplicate-free; every supported pair
with at least one matched area yields exactly one audit record per file,
independent of the number of matched areas; a pair whose surface text
matches zero areas is silently skipped and contributes no audit record
(any new record traces back to a page, an occurrence and a nonempty area
list). -/
theorem spec_c9 :
    (∀ (fn : String) (pages : List Page) (st : PdfState),
        st.unique_redactions.Nodup → (redact_pdf fn pages st).unique_redactions.Nodup)
    ∧ (∀ (fn : String) (pages : List Page) (st : PdfState) (pg : Page)
        (e : Ent) (ph : String),
        st.unique_redactions.Nodup → pg ∈ pages → e ∈ pg.ents →
        lookupLabel e.label_ = some ph → searchFor pg e.text ≠ [] →
        (redact_pdf fn pages st).unique_redactions.count (fn, e.text, ph) = 1)
    ∧ (∀ (fn : String) (pages : List Page) (st : PdfState) (w ph : String),
        (fn, w, ph) ∉ st.unique_redactions →
        (fn, w, ph) ∈ (redact_pdf fn pages st).unique_redactions →
        ∃ pg ∈ pages, ∃ e ∈ pg.ents,
          e.text = w ∧ lookupLabel e.label_ = some ph ∧ searchFor pg w ≠ []) := by
  refine ⟨redact_pdf_nodup, ?_, ?_⟩
  · intro fn pages st pg e ph hnd hpg he hl hs
    have hmem : (fn, e.text, ph) ∈ (redact_pdf fn pages st).unique_redactions := by
      rw [mem_redact_pdf_iff]
      exact Or.inr ⟨pg, hpg, e, he, ph, hl, hs, rfl⟩
    exact count_eq_one_of_nodup_mem (redact_pdf_nodup fn pages st hnd) hmem
  · intro fn pages st w ph hnot hmem
    rw [mem_redact_pdf_iff] at hmem
    rcases hmem with h | ⟨pg, hpg, e, he, ph', hl, hs, heq⟩
    · exact absurd h hnot
    · have hw : w = e.text := congrArg (fun z => z.2.1) heq
      have hph : ph = ph' := congrArg (fun z => z.2.2) heq
      subst hw
      exact ⟨pg, hpg, e, he, rfl, by rw [hph]; exact hl, hs⟩

/-- Witness for C9 amended at a concrete input: two matched areas for
"Acme" on one page still yield exactly one audit record. -/
theorem spec_c9_witness :
    (redact_pdf "w.pdf" [⟨[⟨0, 4, "ORG", "Acme"⟩], [("Acme", [0, 1])]⟩]
      ⟨[], []⟩).unique_redactions.count ("w.pdf", "Acme", "[ORG_NAME]") = 1 :=
  spec_c9.2.1 "w.pdf" [⟨[⟨0, 4, "ORG", "Acme"⟩], [("Acme", [0, 1])]⟩] ⟨[], []⟩
    ⟨[⟨0, 4, "ORG", "Acme"⟩], [("Acme", [0, 1])]⟩ ⟨0, 4, "ORG", "Acme"⟩ "[ORG_NAME]"
    (by decide) (by decide) (by decide) (by decide) (by decide)

/-- C8: with zero detected occurrences both variants of `anonymize_text`
return the input text character-for-character unchanged (the empty string
included) and leave the mapping and the audit store exactly as they were. -/
theorem spec_c8 :
    (∀ (wl : List String) (fn : String) (st : AnonState) (t : List Char),
        anonymize_text wl fn [] st t = (st, t))
    ∧ (∀ (log : List (String × String)) (t : List Char),
        mf_anonymize_text [] log t = (log, t)) :=
  ⟨fun _ _ _ _ => rfl, fun _ _ => rfl⟩

/-- C10: in the text-splicing batch path an audit record is emitted only on
the first sighting of a surface string in the whole session: starting from
the cleared state, after any batch at most one audit record carries a given
surface string as original text, and once a surface string is mapped a
later `anonymize_text` call (a later file) adds no record for it. -/
theorem spec_c10 :
    (∀ (wl : List String) (files : List BatchFile) (s : String),
        ((process_folder wl files AnonState.empty).1.unique_redactions.filter
          (fun r => r.2.1 == s)).length ≤ 1)
    ∧ (∀ (wl : List String) (fn : String) (ents : List Ent) (st : AnonState)
        (t : List Char) (s p : String),
        mappingLookup st.entity_mapping s = some p →
        (anonymize_text wl fn ents st t).1.unique_redactions.filter
          (fun r => r.2.1 == s)
          = st.unique_redactions.filter (fun r => r.2.1 == s)) := by
  constructor
  · intro wl files s
    have hinv := process_folder_preserve wl
      (fun st' => (mappingLookup st'.entity_mapping s = none →
          st'.unique_redactions.filter (fun r => r.2.1 == s) = [])
        ∧ (st'.unique_redactions.filter (fun r => r.2.1 == s)).length ≤ 1)
      (anonStep_audit_once wl s) files AnonState.empty
      ⟨fun _ => rfl, Nat.zero_le 1⟩
    exact hinv.2
  · intro wl fn ents st t s p hp
    have hstep : ∀ (fn' : String) (acc : AnonState × List Char) (e : Ent),
        (mappingLookup acc.1.entity_mapping s = some p
          ∧ acc.1.unique_redactions.filter (fun r => r.2.1 == s)
              = st.unique_redactions.filter (fun r => r.2.1 == s)) →
        (mappingLookup (anonStep wl fn' acc e).1.entity_mapping s = some p
          ∧ (anonStep wl fn' acc e).1.unique_redactions.filter (fun r => r.2.1 == s)
              = st.unique_redactions.filter (fun r => r.2.1 == s)) := by
      intro fn' acc e h
      obtain ⟨hmap, hfil⟩ := h
      unfold anonStep
      rcases hl : lookupLabel e.label_ with _ | lp
      · exact ⟨hmap, hfil⟩
      · by_cases hw : e.text ∈ wl
        · simp only [if_pos hw]
          exact ⟨hmap, hfil⟩
        · simp only [if_neg hw]
          rcases hm : mappingLookup acc.1.entity_mapping e.text with _ | q
          · show mappingLookup (acc.1.entity_mapping ++ [(e.text, lp)]) s = some p
              ∧ (setAdd acc.1.unique_redactions (fn', e.text, lp)).filter
                  (fun r => r.2.1 == s)
                = st.unique_redactions.filter (fun r => r.2.1 == s)
            have he : e.text ≠ s := by
              intro h0
              rw [h0] at hm
              rw [hm] at hmap
              cases hmap
            have hx : ((fn', e.text, lp).2.1 == s) = false := beq_eq_false_iff_ne.mpr he
            constructor
            · exact mappingLookup_append_left hmap
            · rw [filter_setAdd_of_neg hx]
              exact hfil
          · exact ⟨hmap, hfil⟩
    have hres := anonymize_text_preserve wl
      (fun st' => mappingLookup st'.entity_mapping s = some p
        ∧ st'.unique_redactions.filter (fun r => r.2.1 == s)
            = st.unique_redactions.filter (fun r => r.2.1 == s))
      hstep fn ents st t ⟨hp, rfl⟩
    exact hres.2

/-- Witness for C10 at a concrete input: "Acme" was first sighted (and
logged) in a.docx; processing it again in b.docx under another category
adds no further audit record with "Acme" as original. -/
theorem spec_c10_witness :
    (anonymize_text [] "b.docx" [⟨0, 4, "PERSON", "Acme"⟩]
      ⟨[("Acme", "[ORG_NAME]")], [("a.docx", "Acme", "[ORG_NAME]")]⟩
      "Acme".data).1.unique_redactions.filter (fun r => r.2.1 == "Acme")
      = ([("a.docx", "Acme", "[ORG_NAME]")] :
          List (String × String × String)).filter (fun r => r.2.1 == "Acme") :=
  spec_c10.2 [] "b.docx" [⟨0, 4, "PERSON", "Acme"⟩]
    ⟨[("Acme", "[ORG_NAME]")], [("a.docx", "Acme", "[ORG_NAME]")]⟩
    "Acme".data "Acme" "[ORG_NAME]" (by decide)
